import Mathlib

/-!
Verification of the ELL node-graph core: `ExtremalValueNode` (argmax/argmin
reduction node) and the `FilterBankNode` family, shallowly embedded from
`src/libraries/nodes/tcc/ExtremalValueNode.tcc` and
`src/libraries/nodes/include/FilterBankNode.h`.

Elements are modelled as `Int` (the C++ node is polymorphic over a numeric
`ValueType`; the claims under study depend only on the linear order).
`PortElements` (the linkage of an input port to upstream outputs) is modelled
as a list of indices into an upstream value environment.
-/

/-- A `PortElements` linkage: indices of the upstream elements the input port
observes.  `resolvePortElements` plays the role of `InputPort::GetValue`,
reading the referenced elements out of the upstream environment. -/
def resolvePortElements (pe : List Nat) (env : List Int) : List Int :=
  pe.filterMap env.get?

/-- `emitters::BinaryPredicateType`, restricted to the two predicates the
extremal-value node uses. -/
inductive BinaryPredicateType where
  | greater
  | less
deriving DecidableEq

/-- `ExtremalValueNode::GetComparison`: `greater` for the max variant,
`less` for the min variant (ExtremalValueNode.tcc lines 57-68).  The C++
template parameter `bool max` is the `isMax` argument throughout. -/
def ExtremalValueNode.GetComparison (isMax : Bool) : BinaryPredicateType :=
  if isMax then .greater else .less

/-- Evaluation of an emitted typed comparison `cmp a b`: the emitted guard is
`If(cmp, val, bestVal)`, so the first operand is the candidate and the second
the current best. -/
def applyComparison (c : BinaryPredicateType) (a b : Int) : Bool :=
  match c with
  | .greater => decide (b < a)
  | .less => decide (a < b)

/-- The update test of `std::max_element` / `std::min_element` as used by
`ExtremalValueNode::Compute`: the best element is replaced by candidate `x`
exactly when `x` strictly beats the current best `bv` (strictly greater for
max, strictly less for min), which yields first-occurrence tie-breaking. -/
def updateCond (isMax : Bool) (x bv : Int) : Bool :=
  if isMax then decide (bv < x) else decide (x < bv)

/-- `x` is strictly worse than `y` for the chosen variant. -/
def ltB (isMax : Bool) (x y : Int) : Prop :=
  if isMax then x < y else y < x

/-- `x` is no better than `y` for the chosen variant. -/
def leB (isMax : Bool) (x y : Int) : Prop :=
  if isMax then x ≤ y else y ≤ x

/-- The scan of `std::max_element` / `std::min_element` over the remaining
elements: `bv`/`bi` are the best value and its index so far, `i` the index of
the head of `rest` in the whole vector. -/
def scanExtremal (isMax : Bool) : List Int → Int → Nat → Nat → Int × Nat
  | [], bv, bi, _ => (bv, bi)
  | x :: rest, bv, bi, i =>
    if updateCond isMax x bv then scanExtremal isMax rest x i (i + 1)
    else scanExtremal isMax rest bv bi (i + 1)

/-- `ExtremalValueNode::Compute` (ExtremalValueNode.tcc lines 38-55): run
`std::max_element` (resp. `std::min_element`) over the input values and output
the extremal value and its iterator offset.  On an empty input the C++ code
dereferences the end iterator (undefined); this is modelled as `none`. -/
def ExtremalValueNode.Compute (isMax : Bool) (xs : List Int) : Option (Int × Nat) :=
  match xs with
  | [] => none
  | x :: rest => some (scanExtremal isMax rest x 0 1)

lemma updateCond_eq_true_iff (isMax : Bool) (x bv : Int) :
    updateCond isMax x bv = true ↔ ltB isMax bv x := by
  cases isMax <;> simp [updateCond, ltB]

lemma updateCond_eq_false_iff (isMax : Bool) (x bv : Int) :
    updateCond isMax x bv = false ↔ leB isMax x bv := by
  cases isMax <;> simp [updateCond, ltB, leB]

lemma leB_refl (isMax : Bool) (x : Int) : leB isMax x x := by
  cases isMax <;> simp [leB]

lemma ltB_leB (isMax : Bool) {x y : Int} (h : ltB isMax x y) : leB isMax x y := by
  cases isMax <;> simp [ltB, leB] at * <;> omega

lemma ltB_trans (isMax : Bool) {x y z : Int} (h1 : ltB isMax x y) (h2 : ltB isMax y z) :
    ltB isMax x z := by
  cases isMax <;> simp [ltB] at * <;> omega

lemma leB_ltB_trans (isMax : Bool) {x y z : Int} (h1 : leB isMax x y) (h2 : ltB isMax y z) :
    ltB isMax x z := by
  cases isMax <;> simp [ltB, leB] at * <;> omega

lemma ltB_ne (isMax : Bool) {x y : Int} (h : ltB isMax x y) : x ≠ y := by
  cases isMax <;> simp [ltB] at * <;> omega

/-- Characterization of the result of the scan relative to its starting state:
either the incoming best survives (and nothing in `rest` beats it), or the
winner sits at offset `k` of `rest`, strictly beats the incoming best and
everything before it, and is not beaten by anything in `rest`. -/
def ScanResultChar (isMax : Bool) (rest : List Int) (bv : Int) (bi i : Nat)
    (v : Int) (r : Nat) : Prop :=
  (v = bv ∧ r = bi ∧ ∀ y ∈ rest, leB isMax y bv) ∨
  (∃ k, ∃ hk : k < rest.length, v = rest.get ⟨k, hk⟩ ∧ r = i + k ∧ ltB isMax bv v ∧
    (∀ m, (hm : m < rest.length) → m < k → ltB isMax (rest.get ⟨m, hm⟩) v) ∧
    (∀ y ∈ rest, leB isMax y v))

lemma scan_char (isMax : Bool) (rest : List Int) : ∀ (bv : Int) (bi i : Nat),
    ScanResultChar isMax rest bv bi i (scanExtremal isMax rest bv bi i).1
      (scanExtremal isMax rest bv bi i).2 := by
  induction rest with
  | nil =>
    intro bv bi i
    exact Or.inl ⟨rfl, rfl, by simp⟩
  | cons x rest ih =>
    intro bv bi i
    cases hc : updateCond isMax x bv
    · have hscan : scanExtremal isMax (x :: rest) bv bi i =
          scanExtremal isMax rest bv bi (i + 1) := by
        simp [scanExtremal, hc]
      rw [hscan]
      have hxbv : leB isMax x bv := (updateCond_eq_false_iff isMax x bv).mp hc
      rcases ih bv bi (i + 1) with ⟨hv, hr, hle⟩ | ⟨k, hk, hv, hr, hlt, hfirst, hle⟩
      · refine Or.inl ⟨hv, hr, ?_⟩
        intro y hy
        rcases List.mem_cons.mp hy with h0 | h0
        · rw [h0]; exact hxbv
        · exact hle y h0
      · refine Or.inr ⟨k + 1, Nat.succ_lt_succ hk, hv, by omega, hlt, ?_, ?_⟩
        · intro m hm hmk
          match m with
          | 0 => exact leB_ltB_trans isMax hxbv hlt
          | Nat.succ m => exact hfirst m (Nat.lt_of_succ_lt_succ hm) (by omega)
        · intro y hy
          rcases List.mem_cons.mp hy with h0 | h0
          · rw [h0]; exact ltB_leB isMax (leB_ltB_trans isMax hxbv hlt)
          · exact hle y h0
    · have hscan : scanExtremal isMax (x :: rest) bv bi i =
          scanExtremal isMax rest x i (i + 1) := by
        simp [scanExtremal, hc]
      rw [hscan]
      have hbvx : ltB isMax bv x := (updateCond_eq_true_iff isMax x bv).mp hc
      rcases ih x i (i + 1) with ⟨hv, hr, hle⟩ | ⟨k, hk, hv, hr, hlt, hfirst, hle⟩
      · refine Or.inr ⟨0, Nat.succ_pos rest.length, hv, by omega, ?_, ?_, ?_⟩
        · rw [hv]; exact hbvx
        · intro m hm hmk; omega
        · intro y hy
          rcases List.mem_cons.mp hy with h0 | h0
          · rw [h0, hv]; exact leB_refl isMax x
          · rw [hv]; exact hle y h0
      · refine Or.inr ⟨k + 1, Nat.succ_lt_succ hk, hv, by omega,
          ltB_trans isMax hbvx hlt, ?_, ?_⟩
        · intro m hm hmk
          match m with
          | 0 => exact hlt
          | Nat.succ m => exact hfirst m (Nat.lt_of_succ_lt_succ hm) (by omega)
        · intro y hy
          rcases List.mem_cons.mp hy with h0 | h0
          · rw [h0]; exact ltB_leB isMax hlt
          · exact hle y h0

/-- C1: for every non-empty input vector and for both the max and the min
variant, `ExtremalValueNode::Compute` sets the best-value output to the
maximum (resp. minimum) element of the input and the best-index output to the
0-based position of the first element achieving that value (ties broken by
first occurrence in scan order). -/
theorem extremalValueNode_compute_correct (isMax : Bool) (xs : List Int)
    (h : xs ≠ []) :
    ∃ v i, ExtremalValueNode.Compute isMax xs = some (v, i) ∧
      (∃ hi : i < xs.length, xs.get ⟨i, hi⟩ = v) ∧
      (∀ y ∈ xs, leB isMax y v) ∧
      (∀ j, (hj : j < xs.length) → j < i → xs.get ⟨j, hj⟩ ≠ v) := by
  match xs with
  | [] => exact absurd rfl h
  | x :: rest =>
    refine ⟨(scanExtremal isMax rest x 0 1).1, (scanExtremal isMax rest x 0 1).2,
      by simp [ExtremalValueNode.Compute], ?_, ?_, ?_⟩
    · rcases scan_char isMax rest x 0 1 with ⟨hv, hr, _⟩ | ⟨k, hk, hv, hr, _, _, _⟩
      · rw [hv, hr]; exact ⟨Nat.succ_pos rest.length, rfl⟩
      · rw [hv, hr]
        have h1k : 1 + k = k + 1 := Nat.add_comm 1 k
        rw [h1k]
        exact ⟨Nat.succ_lt_succ hk, rfl⟩
    · rcases scan_char isMax rest x 0 1 with ⟨hv, _, hle⟩ | ⟨_, _, _, _, hlt, _, hle⟩
      · intro y hy
        rcases List.mem_cons.mp hy with h0 | h0
        · rw [h0, hv]; exact leB_refl isMax x
        · rw [hv]; exact hle y h0
      · intro y hy
        rcases List.mem_cons.mp hy with h0 | h0
        · rw [h0]; exact ltB_leB isMax hlt
        · exact hle y h0
    · rcases scan_char isMax rest x 0 1 with ⟨_, hr, _⟩ | ⟨k, hk, _, hr, hlt, hfirst, _⟩
      · intro j hj hji
        rw [hr] at hji
        omega
      · intro j hj hji
        rw [hr] at hji
        match j with
        | 0 => exact ltB_ne isMax hlt
        | Nat.succ j =>
          exact ltB_ne isMax (hfirst j (Nat.lt_of_succ_lt_succ hj) (by omega))

/-- One compare-and-conditionally-store step of the emitted code, shared by
both emission strategies: load element `i`, compare it against the current
best with the emitted comparison of the node (`If(GetComparison(), val, bestVal)`),
and conditionally store the new best value and index.  An out-of-bounds load
is modelled as `none`. -/
def emittedStep (isMax : Bool) (xs : List Int) (st : Option (Int × Nat)) (i : Nat) :
    Option (Int × Nat) :=
  match st with
  | none => none
  | some (bv, bi) =>
    match xs.get? i with
    | none => none
    | some v =>
      if applyComparison (ExtremalValueNode.GetComparison isMax) v bv then some (v, i)
      else some (bv, bi)

/-- Denotation of the code emitted by `ExtremalValueNode::CompileLoop`
(ExtremalValueNode.tcc lines 85-111): `bestVal` is initialized from element 0
and `bestIndex` is zeroed, then a single counted loop `For(1, numInputs, 1)`
runs the compare-and-store body for indices `1 .. numInputs-1`, and the final
best value/index are stored to the two output locations (the returned pair). -/
def ExtremalValueNode.CompileLoop (isMax : Bool) (xs : List Int) : Option (Int × Nat) :=
  match xs.get? 0 with
  | none => none
  | some v0 => (List.range' 1 (xs.length - 1)).foldl (emittedStep isMax xs) (some (v0, 0))

/-- The unrolled emission of `ExtremalValueNode::CompileExpanded`: `k` copies
of the compare-and-store body, for indices `1 .. k`, emitted in increasing
index order by the compile-time `for` loop. -/
def expandedSteps (isMax : Bool) (xs : List Int) : Nat → Option (Int × Nat) → Option (Int × Nat)
  | 0, st => st
  | k + 1, st => emittedStep isMax xs (expandedSteps isMax xs k st) (k + 1)

/-- Denotation of the code emitted by `ExtremalValueNode::CompileExpanded`
(ExtremalValueNode.tcc lines 113-139): `bestVal` is initialized from element 0
and `bestIndex` is zeroed, then `numInputs - 1` explicit compare-and-store
sequences are emitted (one per index `1 .. numInputs-1`), and the final best
value/index are stored to the two output locations. -/
def ExtremalValueNode.CompileExpanded (isMax : Bool) (xs : List Int) : Option (Int × Nat) :=
  match xs.get? 0 with
  | none => none
  | some v0 => expandedSteps isMax xs (xs.length - 1) (some (v0, 0))

/-- The emitted comparison agrees with the update test of the interpreter (both
are strict: greater for max, less for min). -/
lemma applyComparison_getComparison (isMax : Bool) (v bv : Int) :
    applyComparison (ExtremalValueNode.GetComparison isMax) v bv = updateCond isMax v bv := by
  cases isMax <;> rfl

lemma foldl_emittedStep_range (isMax : Bool) (xs : List Int) :
    ∀ (k i : Nat) (bv : Int) (bi : Nat), i + k = xs.length →
      (List.range' i k).foldl (emittedStep isMax xs) (some (bv, bi)) =
        some (scanExtremal isMax (xs.drop i) bv bi i) := by
  intro k
  induction k with
  | zero =>
    intro i bv bi hik
    have hi : i = xs.length := by omega
    rw [hi]
    simp [List.drop_length, scanExtremal, List.range']
  | succ k ih =>
    intro i bv bi hik
    have hi : i < xs.length := by omega
    have hdrop : xs.drop i = xs[i] :: xs.drop (i + 1) := List.drop_eq_getElem_cons hi
    have hget : xs[i]? = some xs[i] := List.getElem?_eq_getElem hi
    rw [List.range'_succ, List.foldl_cons, hdrop]
    show (List.range' (i + 1) k).foldl (emittedStep isMax xs)
        (emittedStep isMax xs (some (bv, bi)) i) = _
    rw [show emittedStep isMax xs (some (bv, bi)) i =
        if updateCond isMax xs[i] bv then some (xs[i], i) else some (bv, bi) from by
      simp [emittedStep, hget, applyComparison_getComparison]]
    cases hcond : updateCond isMax xs[i] bv
    · simp only [hcond, Bool.false_eq_true, if_false]
      rw [ih (i + 1) bv bi (by omega)]
      simp [scanExtremal, hcond]
    · simp only [hcond, if_true]
      rw [ih (i + 1) xs[i] i (by omega)]
      simp [scanExtremal, hcond]

lemma expandedSteps_eq_foldl (isMax : Bool) (xs : List Int) :
    ∀ (k : Nat) (st : Option (Int × Nat)),
      expandedSteps isMax xs k st = (List.range' 1 k).foldl (emittedStep isMax xs) st := by
  intro k
  induction k with
  | zero => intro st; simp [expandedSteps, List.range']
  | succ k ih =>
    intro st
    rw [List.range'_1_concat, List.foldl_append, List.foldl_cons, List.foldl_nil]
    show emittedStep isMax xs (expandedSteps isMax xs k st) (k + 1) = _
    rw [ih st, Nat.add_comm 1 k]

/-- C2: for every input vector and both emission strategies, the output
values stored by the emitted code equal the outputs of
`ExtremalValueNode::Compute`: both strategies initialize the best value from element 0 and the
best index to 0, compare elements `1 .. N-1` strictly with the same
comparator as the interpreter, and store the final best value and index into
the two scalar outputs. -/
theorem extremalValueNode_compile_refines_compute (isMax : Bool) (xs : List Int) :
    ExtremalValueNode.CompileLoop isMax xs = ExtremalValueNode.Compute isMax xs ∧
      ExtremalValueNode.CompileExpanded isMax xs = ExtremalValueNode.Compute isMax xs := by
  have hloop : ExtremalValueNode.CompileLoop isMax xs = ExtremalValueNode.Compute isMax xs := by
    match xs with
    | [] => rfl
    | x :: rest =>
      show (List.range' 1 ((x :: rest).length - 1)).foldl (emittedStep isMax (x :: rest))
          (some (x, 0)) = _
      have hlen : (x :: rest).length - 1 = rest.length := by simp
      rw [hlen, foldl_emittedStep_range isMax (x :: rest) rest.length 1 x 0 (by simp; omega)]
      rfl
  refine ⟨hloop, ?_⟩
  rw [← hloop]
  match xs with
  | [] => rfl
  | x :: rest =>
    show expandedSteps isMax (x :: rest) ((x :: rest).length - 1) (some (x, 0)) = _
    rw [expandedSteps_eq_foldl]
    rfl

/-- Witness for C1 at the tie-breaking test vector of the spec, `[3, 5, 5, 2]`,
max variant (the claimed result there is value 5, index 1). -/
theorem extremalValueNode_compute_correct_witness :
    ([3, 5, 5, 2] : List Int) ≠ [] ∧
      (∃ v i, ExtremalValueNode.Compute true [3, 5, 5, 2] = some (v, i) ∧
        (∃ hi : i < ([3, 5, 5, 2] : List Int).length,
          ([3, 5, 5, 2] : List Int).get ⟨i, hi⟩ = v) ∧
        (∀ y ∈ ([3, 5, 5, 2] : List Int), leB true y v) ∧
        (∀ j, (hj : j < ([3, 5, 5, 2] : List Int).length) → j < i →
          ([3, 5, 5, 2] : List Int).get ⟨j, hj⟩ ≠ v)) :=
  ⟨by decide, extremalValueNode_compute_correct true [3, 5, 5, 2] (by decide)⟩

/-- The two code-generation strategies of the extremal-value node. -/
inductive CompileStrategy where
  | loop
  | expanded
deriving DecidableEq

/-- The strategy decision inside `ExtremalValueNode::Compile` (lines 75-82):
loop exactly when the input port is a pure contiguous vector and the global
unroll-loops compiler option is off, expanded otherwise. -/
def ExtremalValueNode.selectStrategy (isPureVector unrollLoops : Bool) : CompileStrategy :=
  if isPureVector && !unrollLoops then .loop else .expanded

/-- Modelled from the spec: `VerifyIsScalar` (a compilable-node utility whose
implementation is not under src) checks that a port has size 1 and raises a
fatal compile error otherwise. -/
def VerifyIsScalar (size : Nat) : Except String Unit :=
  if size = 1 then .ok () else .error ("port is not scalar")

/-- `ExtremalValueNode::Compile` (lines 70-83): verify that both output ports
are scalar, then dispatch on the strategy decision; the result records the
chosen strategy together with the meaning of the emitted code on input `xs`.
`valSize`/`argValSize` are the sizes of the two output ports. -/
def ExtremalValueNode.Compile (valSize argValSize : Nat)
    (isMax isPureVector unrollLoops : Bool) (xs : List Int) :
    Except String (CompileStrategy × Option (Int × Nat)) :=
  match VerifyIsScalar valSize with
  | .error e => .error e
  | .ok _ =>
    match VerifyIsScalar argValSize with
    | .error e => .error e
    | .ok _ =>
      match ExtremalValueNode.selectStrategy isPureVector unrollLoops with
      | .loop => .ok (.loop, ExtremalValueNode.CompileLoop isMax xs)
      | .expanded => .ok (.expanded, ExtremalValueNode.CompileExpanded isMax xs)

/-- The state of an `ExtremalValueNode`: the max/min tag (the template
parameter), the input port linkage, and the buffers of the two output ports. -/
structure ExtremalValueNodeState where
  isMax : Bool
  input : List Nat
  valOut : List Int
  argValOut : List Int
deriving DecidableEq

/-- The `ExtremalValueNode` constructor (lines 19-23): registers the ports
and stores the input linkage.  Its body performs no validation of the input
size (and the default constructor at lines 13-17 itself passes an empty
linkage); the `Except` result renders the fail-fast question statable, and,
faithful to the source, the constructor never returns an error. -/
def ExtremalValueNode.construct (isMax : Bool) (input : List Nat) :
    Except String ExtremalValueNodeState :=
  .ok { isMax := isMax, input := input, valOut := [], argValOut := [] }

/-- `ExtremalValueNode::Compute` as a transformer of the node state paired
with the upstream environment: it reads the input port and writes only the
two output ports (`SetOutput` on `_val` and `_argVal`, the index cast to a
machine int). -/
def ExtremalValueNode.ComputeState (st : ExtremalValueNodeState) (env : List Int) :
    Option (ExtremalValueNodeState × List Int) :=
  match ExtremalValueNode.Compute st.isMax (resolvePortElements st.input env) with
  | none => none
  | some (v, i) => some ({ st with valOut := [v], argValOut := [(i : Int)] }, env)

/-- C4: the strategy decision is loop if and only if the input is a pure
contiguous vector and the unroll option is off, it is a pure function of
those two booleans, and `Compile` on a well-formed node dispatches exactly on
it. -/
theorem extremalValueNode_compile_strategy_selection (isPureVector unrollLoops isMax : Bool)
    (xs : List Int) :
    (ExtremalValueNode.selectStrategy isPureVector unrollLoops = CompileStrategy.loop ↔
      (isPureVector = true ∧ unrollLoops = false)) ∧
      ExtremalValueNode.Compile 1 1 isMax isPureVector unrollLoops xs =
        .ok (ExtremalValueNode.selectStrategy isPureVector unrollLoops,
          if isPureVector && !unrollLoops then ExtremalValueNode.CompileLoop isMax xs
          else ExtremalValueNode.CompileExpanded isMax xs) := by
  cases isPureVector <;> cases unrollLoops <;> exact ⟨by decide, rfl⟩

/-- C5: before emitting any code, `Compile` checks that both output ports are
scalar; if either is not, it aborts with an error and emits nothing. -/
theorem extremalValueNode_compile_scalar_check (valSize argValSize : Nat)
    (isMax isPureVector unrollLoops : Bool) (xs : List Int)
    (h : valSize ≠ 1 ∨ argValSize ≠ 1) :
    ∃ e, ExtremalValueNode.Compile valSize argValSize isMax isPureVector unrollLoops xs =
      Except.error e := by
  by_cases hval : valSize = 1
  · subst hval
    rcases h with h | h
    · exact absurd rfl h
    · exact ⟨"port is not scalar", by simp [ExtremalValueNode.Compile, VerifyIsScalar, h]⟩
  · exact ⟨"port is not scalar", by simp [ExtremalValueNode.Compile, VerifyIsScalar, hval]⟩

/-- Witness for C5: a best-value port of size 2 makes the compile pass abort. -/
theorem extremalValueNode_compile_scalar_check_witness :
    ((2 : Nat) ≠ 1 ∨ (1 : Nat) ≠ 1) ∧
      ∃ e, ExtremalValueNode.Compile 2 1 true true false [] = Except.error e :=
  ⟨by decide, extremalValueNode_compile_scalar_check 2 1 true true false [] (by decide)⟩

/-- C3 counterexample: constructing with a zero-size input does not raise an
error; the constructor silently succeeds on an empty linkage. -/
theorem extremalValueNode_construct_empty_ok :
    ExtremalValueNode.construct true [] =
      Except.ok { isMax := true, input := [], valOut := [], argValOut := [] } := rfl

/-- C3 amended: construction never fails, in particular not on a zero-size
input (no validation is performed, and the default constructor itself builds
the node with an empty linkage); with a zero-size input the failure surfaces
only at first use, where `Compute` faces the undefined reduction of an empty
vector (modelled as `none`). -/
theorem extremalValueNode_construct_no_validation (isMax : Bool) (pe : List Nat)
    (h : pe = []) :
    ExtremalValueNode.construct isMax pe =
        Except.ok { isMax := isMax, input := pe, valOut := [], argValOut := [] } ∧
      ∀ env : List Int,
        ExtremalValueNode.Compute isMax (resolvePortElements pe env) = none := by
  subst h
  exact ⟨rfl, fun env => rfl⟩

/-- Witness for the amended C3 at the empty linkage. -/
theorem extremalValueNode_construct_no_validation_witness :
    ([] : List Nat) = [] ∧
      (ExtremalValueNode.construct false [] =
          Except.ok { isMax := false, input := [], valOut := [], argValOut := [] } ∧
        ∀ env : List Int,
          ExtremalValueNode.Compute false (resolvePortElements [] env) = none) :=
  ⟨rfl, extremalValueNode_construct_no_validation false [] rfl⟩

/-- C7: `Compute` mutates nothing but the two output ports: the max/min tag,
the input linkage, and the upstream environment are unchanged. -/
theorem extremalValueNode_compute_frame (st st2 : ExtremalValueNodeState)
    (env env2 : List Int)
    (h : ExtremalValueNode.ComputeState st env = some (st2, env2)) :
    st2.isMax = st.isMax ∧ st2.input = st.input ∧ env2 = env := by
  unfold ExtremalValueNode.ComputeState at h
  cases hc : ExtremalValueNode.Compute st.isMax (resolvePortElements st.input env) with
  | none => rw [hc] at h; exact absurd h (by simp)
  | some p =>
    obtain ⟨v, i⟩ := p
    rw [hc] at h
    simp only [Option.some.injEq, Prod.mk.injEq] at h
    obtain ⟨h1, h2⟩ := h
    subst h2
    rw [← h1]
    exact ⟨rfl, rfl, rfl⟩

/-- Witness for C7 on a singleton input. -/
theorem extremalValueNode_compute_frame_witness :
    ExtremalValueNode.ComputeState ⟨true, [0], [], []⟩ [7] =
        some (⟨true, [0], [7], [0]⟩, [7]) ∧
      ((⟨true, [0], [7], [0]⟩ : ExtremalValueNodeState).isMax =
          (⟨true, [0], [], []⟩ : ExtremalValueNodeState).isMax ∧
        (⟨true, [0], [7], [0]⟩ : ExtremalValueNodeState).input =
          (⟨true, [0], [], []⟩ : ExtremalValueNodeState).input ∧
        ([7] : List Int) = [7]) :=
  ⟨rfl, extremalValueNode_compute_frame ⟨true, [0], [], []⟩ ⟨true, [0], [7], [0]⟩ [7] [7] rfl⟩

/-- Modelled from the spec: the port name constants declared in the node
header (the header itself is not under src; the standard ELL names are used).
The claims depend only on write and read using the same constants. -/
def inputPortName : String := "input"

/-- The archive field name of the best-value output port. -/
def valPortName : String := "val"

/-- The archive field name of the best-index output port. -/
def argValPortName : String := "argVal"

/-- A value stored in the keyed archive: either the serialized linkage of an
input port or the serialized declared size of an output port. -/
inductive ArchValue where
  | portElements (pe : List Nat)
  | outputPort (size : Nat)
deriving DecidableEq

/-- `ExtremalValueNode::WriteToArchive` (lines 141-148): write the input port
and the two output ports under the three port-name keys (the base-class call
handles framework bookkeeping outside this core).  Both output ports are
declared with size 1 by the constructors (lines 15 and 21), so size 1 is what
their serialization carries. -/
def ExtremalValueNode.WriteToArchive (st : ExtremalValueNodeState) :
    List (String × ArchValue) :=
  [(inputPortName, .portElements st.input),
   (valPortName, .outputPort 1),
   (argValPortName, .outputPort 1)]

/-- `ExtremalValueNode::ReadFromArchive` (lines 150-157): read the same three
keys back into a freshly default-constructed node of the same max/min type
(the tag lives in the serialized type name, not in the field set). -/
def ExtremalValueNode.ReadFromArchive (isMax : Bool) (a : List (String × ArchValue)) :
    Option ExtremalValueNodeState :=
  match List.lookup inputPortName a, List.lookup valPortName a,
      List.lookup argValPortName a with
  | some (.portElements pe), some (.outputPort _), some (.outputPort _) =>
    some { isMax := isMax, input := pe, valOut := [], argValOut := [] }
  | _, _, _ => none

/-- C6: write and read use the same field names in both directions, and a
node reconstructed by write-then-read computes identically to the original
on every input. -/
theorem extremalValueNode_archive_roundtrip (st : ExtremalValueNodeState) :
    (ExtremalValueNode.WriteToArchive st).map Prod.fst =
        [inputPortName, valPortName, argValPortName] ∧
      ∃ st2, ExtremalValueNode.ReadFromArchive st.isMax
            (ExtremalValueNode.WriteToArchive st) = some st2 ∧
        st2.input = st.input ∧
        ∀ env, ExtremalValueNode.Compute st2.isMax (resolvePortElements st2.input env) =
          ExtremalValueNode.Compute st.isMax (resolvePortElements st.input env) := by
  refine ⟨rfl, ⟨{ isMax := st.isMax, input := st.input, valOut := [], argValOut := [] },
    ?_, rfl, fun env => rfl⟩⟩
  rfl

/-- The port-remapping and output-relinking state of `model::ModelTransformer`
as the extremal-value node uses it: an element remap, a supply of fresh node
ids, and the registry of original-output to new-output correspondences. -/
structure ModelTransformer where
  elementMap : Nat → Nat
  nextNodeId : Nat
  outputMap : List ((Nat × String) × (Nat × String))

/-- `ModelTransformer::TransformPortElements`: re-resolve a linkage through
the element remap. -/
def ModelTransformer.TransformPortElements (t : ModelTransformer) (pe : List Nat) :
    List Nat :=
  pe.map t.elementMap

/-- `ArgMinNode::Copy` / `ArgMaxNode::Copy` (lines 162-178): transform the
input linkage, add a fresh node of the same max/min variant wired to it, and
register the two outputs of the new node as the images of the originals
(first the value port, then the index port). -/
def ExtremalValueNode.Copy (origId : Nat) (st : ExtremalValueNodeState)
    (t : ModelTransformer) : (Nat × ExtremalValueNodeState) × ModelTransformer :=
  let newPE := t.TransformPortElements st.input
  let newId := t.nextNodeId
  ((newId, { isMax := st.isMax, input := newPE, valOut := [], argValOut := [] }),
   { t with nextNodeId := newId + 1,
            outputMap := t.outputMap ++
              [((origId, valPortName), (newId, valPortName)),
               ((origId, argValPortName), (newId, argValPortName))] })

lemma filterMap_congr_mem {α β : Type} (l : List α) (f g : α → Option β)
    (h : ∀ a ∈ l, f a = g a) : l.filterMap f = l.filterMap g := by
  induction l with
  | nil => rfl
  | cons x xs ih =>
    rw [List.filterMap_cons, List.filterMap_cons, h x (by simp),
      ih (fun a ha => h a (by simp [ha]))]

/-- C8: copying through a transformer re-resolves the input linkage through
the remapping facility, produces a node of the same min/max variant, registers
both outputs of the new node as images of the originals, and computes the same
outputs whenever the remapped linkage resolves to the same upstream values. -/
theorem argExtremalNode_copy_correct (origId : Nat) (st : ExtremalValueNodeState)
    (t : ModelTransformer) (env env2 : List Int)
    (h : ∀ k ∈ st.input, env2.get? (t.elementMap k) = env.get? k) :
    ((ExtremalValueNode.Copy origId st t).1.2.isMax = st.isMax) ∧
      ((ExtremalValueNode.Copy origId st t).1.2.input =
        t.TransformPortElements st.input) ∧
      ((ExtremalValueNode.Copy origId st t).2.outputMap = t.outputMap ++
        [((origId, valPortName), ((ExtremalValueNode.Copy origId st t).1.1, valPortName)),
         ((origId, argValPortName),
           ((ExtremalValueNode.Copy origId st t).1.1, argValPortName))]) ∧
      ExtremalValueNode.Compute (ExtremalValueNode.Copy origId st t).1.2.isMax
          (resolvePortElements (ExtremalValueNode.Copy origId st t).1.2.input env2) =
        ExtremalValueNode.Compute st.isMax (resolvePortElements st.input env) := by
  refine ⟨rfl, rfl, rfl, ?_⟩
  have hres : resolvePortElements (t.TransformPortElements st.input) env2 =
      resolvePortElements st.input env := by
    unfold resolvePortElements ModelTransformer.TransformPortElements
    rw [List.filterMap_map]
    exact filterMap_congr_mem st.input _ _ (fun k hk => h k hk)
  show ExtremalValueNode.Compute st.isMax
      (resolvePortElements (t.TransformPortElements st.input) env2) = _
  rw [hres]

/-- Witness for C8: identity remap over a singleton upstream environment. -/
theorem argExtremalNode_copy_correct_witness :
    (∀ k ∈ ({ isMax := true, input := [0], valOut := [], argValOut := [] } :
        ExtremalValueNodeState).input,
      ([5] : List Int).get? ((fun j => j) k) = ([5] : List Int).get? k) ∧
      (((ExtremalValueNode.Copy 3 ⟨true, [0], [], []⟩ ⟨fun j => j, 9, []⟩).1.2.isMax =
          (⟨true, [0], [], []⟩ : ExtremalValueNodeState).isMax) ∧
        ((ExtremalValueNode.Copy 3 ⟨true, [0], [], []⟩ ⟨fun j => j, 9, []⟩).1.2.input =
          ModelTransformer.TransformPortElements ⟨fun j => j, 9, []⟩
            (⟨true, [0], [], []⟩ : ExtremalValueNodeState).input) ∧
        ((ExtremalValueNode.Copy 3 ⟨true, [0], [], []⟩ ⟨fun j => j, 9, []⟩).2.outputMap =
          (⟨fun j => j, 9, []⟩ : ModelTransformer).outputMap ++
            [((3, valPortName),
               ((ExtremalValueNode.Copy 3 ⟨true, [0], [], []⟩ ⟨fun j => j, 9, []⟩).1.1,
                 valPortName)),
             ((3, argValPortName),
               ((ExtremalValueNode.Copy 3 ⟨true, [0], [], []⟩ ⟨fun j => j, 9, []⟩).1.1,
                 argValPortName))]) ∧
        ExtremalValueNode.Compute
            (ExtremalValueNode.Copy 3 ⟨true, [0], [], []⟩ ⟨fun j => j, 9, []⟩).1.2.isMax
            (resolvePortElements
              (ExtremalValueNode.Copy 3 ⟨true, [0], [], []⟩ ⟨fun j => j, 9, []⟩).1.2.input
              [5]) =
          ExtremalValueNode.Compute (⟨true, [0], [], []⟩ : ExtremalValueNodeState).isMax
            (resolvePortElements
              (⟨true, [0], [], []⟩ : ExtremalValueNodeState).input [5])) :=
  ⟨by intro k hk; rfl,
    argExtremalNode_copy_correct 3 ⟨true, [0], [], []⟩ ⟨fun j => j, 9, []⟩ [5] [5]
      (by intro k hk; rfl)⟩

/-- The state of a concrete filter-bank node (`LinearFilterBankNode` /
`MelFilterBankNode`): the input port linkage and the coefficient table, which
the node holds by value (`_linearFilters` / `_melFilters` in
FilterBankNode.h are value members, and the base-class view `_filters` refers
to that node-owned member, not to model-external memory). -/
structure FilterBankNodeState where
  input : List Nat
  filters : List (List Int)
deriving DecidableEq

/-- `FilterBankNode::HasState` (FilterBankNode.h line 53): the node reports
having stored state, namely the filters. -/
def FilterBankNode.HasState : Bool := true

/-- Left-to-right accumulated dot product of a weight vector against the
input. -/
def dotLR (w x : List Int) : Int :=
  (List.zipWith (fun a b => a * b) w x).foldl (fun a b => a + b) 0

/-- Modelled from the spec: `FilterBankNode::Compute` (only declared in
FilterBankNode.h; the implementation is not under src) — one output per
filter, each the elementwise product of that filter with the input, summed. -/
def FilterBankNode.Compute (st : FilterBankNodeState) (env : List Int) : List Int :=
  st.filters.map (fun w => dotLR w (resolvePortElements st.input env))

/-- Modelled from the spec: the archive field name of the output port of the
filter-bank node. -/
def outputPortName : String := "output"

/-- Modelled from the spec: the archive field name of the coefficient table. -/
def filtersFieldName : String := "filters"

/-- A value stored in the archive of a filter-bank node. -/
inductive FBArchValue where
  | portElements (pe : List Nat)
  | outputPort (size : Nat)
  | table (rows : List (List Int))
deriving DecidableEq

/-- Modelled from the spec: `FilterBankNode::WriteToArchive` (implementation
not under src) persists the input linkage, the output port size, and the
entire coefficient table so the node is self-contained after reload. -/
def FilterBankNode.WriteToArchive (st : FilterBankNodeState) :
    List (String × FBArchValue) :=
  [(inputPortName, .portElements st.input),
   (outputPortName, .outputPort st.filters.length),
   (filtersFieldName, .table st.filters)]

/-- Modelled from the spec: `FilterBankNode::ReadFromArchive` (implementation
not under src) restores the same three fields into a fresh node. -/
def FilterBankNode.ReadFromArchive (a : List (String × FBArchValue)) :
    Option FilterBankNodeState :=
  match List.lookup inputPortName a, List.lookup outputPortName a,
      List.lookup filtersFieldName a with
  | some (.portElements pe), some (.outputPort _), some (.table rows) =>
    some { input := pe, filters := rows }
  | _, _, _ => none

/-- C9: the filter-bank node owns its coefficient table as node state,
reports having stored state, and the table is persisted and restored so that
a deserialized node has an element-wise identical table and reproduces
identical output on every input. -/
theorem filterBankNode_owned_state_roundtrip :
    FilterBankNode.HasState = true ∧
      ∀ st : FilterBankNodeState, ∃ st2,
        FilterBankNode.ReadFromArchive (FilterBankNode.WriteToArchive st) = some st2 ∧
          st2.filters = st.filters ∧
          ∀ env, FilterBankNode.Compute st2 env = FilterBankNode.Compute st env :=
  ⟨rfl, fun st => ⟨{ input := st.input, filters := st.filters }, rfl, rfl, fun _ => rfl⟩⟩

/-- Modelled from the spec: `utilities::GetCompositeTypeName` (TypeName.h is
not under src) forms the composite serialization type name from the base name
and the bracketed, comma-separated argument type names. -/
def GetCompositeTypeName (base arg1 arg2 : String) : String :=
  base ++ "<" ++ arg1 ++ "," ++ arg2 ++ ">"

/-- `ExtremalValueNode::GetTypeName` (lines 25-36): the max variant composes
the name with the true tag type, the min variant with the false tag type;
`valueTypeName` is the serialized name of the element type. -/
def ExtremalValueNode.GetTypeName (isMax : Bool) (valueTypeName : String) : String :=
  if isMax then GetCompositeTypeName ("ExtremalValueNode") valueTypeName ("true")
  else GetCompositeTypeName ("ExtremalValueNode") valueTypeName ("false")

/-- C10: for every element type name, the max and min variants report
distinct serialization type names, so an archived max node cannot be read
back as a min node of the same element type. -/
theorem extremalValueNode_typeName_distinct (valueTypeName : String) :
    ExtremalValueNode.GetTypeName true valueTypeName ≠
      ExtremalValueNode.GetTypeName false valueTypeName := by
  intro h
  have h2 := congrArg String.length h
  simp only [ExtremalValueNode.GetTypeName, GetCompositeTypeName, if_true,
    Bool.false_eq_true, if_false, String.length_append] at h2
  rw [show ("true" : String).length = 4 from rfl,
    show ("false" : String).length = 5 from rfl] at h2
  omega

/-- Witness for C10 at a concrete element type name. -/
theorem extremalValueNode_typeName_distinct_witness :
    ExtremalValueNode.GetTypeName true ("double") ≠
      ExtremalValueNode.GetTypeName false ("double") :=
  extremalValueNode_typeName_distinct ("double")
